import Mathlib

/-!
Verification of the `option-block` crate: a family of fixed-capacity blocks of
optional values (`Block8` … `Block128`) whose occupancy is tracked by an N-bit
mask over an array of `MaybeUninit<T>` cells.

The embedding is generic over the capacity `n` (the bit width of the mask
integer), mirroring the `impl_blocked_optional!` macro of `src/lib.rs`, which
stamps out the same code for n ∈ {8, 16, 32, 64, 128}.

Modelling conventions:
* a storage cell `MaybeUninit<T>` is an `Option α`: `some v` means the cell
  holds the constructed value `v`, `none` means it is uninitialized;
* machine integers (`u8` … `u128`) are `Nat` with bitwise operations, with
  the width-`n` bitwise complement `!x` written as `(2 ^ n - 1) ^^^ x`;
* a fallible Rust computation returns `Res α σ`: `ok v s` is a normal return
  of `v` with post-state `s`, `panicked s` is a panic unwinding with the
  store in state `s` (from `assert!` or `Option::expect`), and `ub` marks a
  call of `MaybeUninit::assume_init{,_ref,_mut}` on an uninitialized cell,
  which is undefined behavior in Rust.
-/

namespace OptionBlock

/-- Outcome of a Rust operation on a store of type `σ`: normal return,
panic (carrying the state observable during unwinding), or undefined
behavior from reading an uninitialized cell as a value. -/
inductive Res (α : Type) (σ : Type) where
  | ok : α → σ → Res α σ
  | panicked : σ → Res α σ
  | ub : Res α σ
deriving Repr, DecidableEq

/-- The block store: `data` models the `[MaybeUninit<T>; N]` array (a cell is
`some v` when initialized with `v`, `none` when uninitialized) and `mask` the
N-bit occupancy mask. -/
structure Block (α : Type) where
  data : List (Option α)
  mask : Nat
deriving Repr, DecidableEq

variable {α : Type}

/-- Rust `Block::new`: empty block, all cells uninitialized, mask `0`. -/
def Block.new (n : Nat) : Block α :=
  { data := List.replicate n none, mask := 0 }

/-- Rust `From<[T; N]>::from`: fully initialized block, mask all ones (`<$int>::MAX`). -/
def Block.ofArray (n : Nat) (vals : List α) : Block α :=
  { data := vals.map some, mask := 2 ^ n - 1 }

/-- Rust `Block::is_vacant`: `assert!(index < CAPACITY)`, then tests
`mask & (1 << index) == 0`.  The panic leaves the block untouched. -/
def is_vacant (n : Nat) (b : Block α) (index : Nat) : Res Bool (Block α) :=
  if index < n then
    .ok (b.mask &&& (1 <<< index) == 0) b
  else
    .panicked b

/-- Rust `u*::count_ones` of a width-`n` value. -/
def count_ones (n m : Nat) : Nat :=
  ((List.range n).filter fun i => m.testBit i).length

/-- Rust `Block::len`: `mask.count_ones()`. -/
def len (n : Nat) (b : Block α) : Nat :=
  count_ones n b.mask

/-- Rust `Block::is_empty`: `mask == 0`. -/
def is_empty (b : Block α) : Bool :=
  b.mask == 0

/-- Rust `Block::get_unchecked` (same body as `get_unchecked_mut`):
`self.data[index].assume_init_ref()`.  The array indexing `self.data[index]`
panics when `index` is out of bounds of the array; `assume_init_ref` on an
uninitialized cell is undefined behavior. -/
def get_unchecked (b : Block α) (index : Nat) : Res α (Block α) :=
  match b.data.get? index with
  | none => .panicked b
  | some none => .ub
  | some (some v) => .ok v b

/-- Rust `Block::get_unchecked_mut`: identical cell access to `get_unchecked`
(`assume_init_mut` in place of `assume_init_ref`). -/
def get_unchecked_mut (b : Block α) (index : Nat) : Res α (Block α) :=
  match b.data.get? index with
  | none => .panicked b
  | some none => .ub
  | some (some v) => .ok v b

/-- Rust `Block::get`: `is_vacant` check (panicking if `index >= CAPACITY`), then
`None` for a vacant slot or `Some(get_unchecked(index))` for an occupied one. -/
def get (n : Nat) (b : Block α) (index : Nat) : Res (Option α) (Block α) :=
  match is_vacant n b index with
  | .panicked s => .panicked s
  | .ub => .ub
  | .ok vacant _ =>
    if vacant then .ok none b
    else
      match get_unchecked b index with
      | .panicked s => .panicked s
      | .ub => .ub
      | .ok v _ => .ok (some v) b

/-- Rust `Block::get_mut`: as `get`, via `get_unchecked_mut`. -/
def get_mut (n : Nat) (b : Block α) (index : Nat) : Res (Option α) (Block α) :=
  match is_vacant n b index with
  | .panicked s => .panicked s
  | .ub => .ub
  | .ok vacant _ =>
    if vacant then .ok none b
    else
      match get_unchecked_mut b index with
      | .panicked s => .panicked s
      | .ub => .ub
      | .ok v _ => .ok (some v) b

/-- Rust `Block::insert`: `let vacant = self.is_vacant(index)` (panics when
`index >= CAPACITY`), `mem::replace` of the cell with `MaybeUninit::new(value)`,
`self.mask |= 1 << index`, then `None` if the slot was vacant, else
`Some(uninit_value.assume_init())`. -/
def insert (n : Nat) (b : Block α) (index : Nat) (value : α) : Res (Option α) (Block α) :=
  match is_vacant n b index with
  | .panicked s => .panicked s
  | .ub => .ub
  | .ok vacant _ =>
    match b.data.get? index with
    | none => .panicked b
    | some uninit_value =>
      let b' : Block α := { data := b.data.set index (some value), mask := b.mask ||| (1 <<< index) }
      if vacant then .ok none b'
      else
        match uninit_value with
        | some old => .ok (some old) b'
        | none => .ub

/-- Rust `Block::remove`: early `return None` when vacant (panicking when
`index >= CAPACITY`), else `mem::replace` of the cell with `uninit`,
`self.mask &= !(1 << index)`, and `Some(uninit_val.assume_init())`. -/
def remove (n : Nat) (b : Block α) (index : Nat) : Res (Option α) (Block α) :=
  match is_vacant n b index with
  | .panicked s => .panicked s
  | .ub => .ub
  | .ok vacant _ =>
    if vacant then .ok none b
    else
      match b.data.get? index with
      | none => .panicked b
      | some uninit_val =>
        let b' : Block α :=
          { data := b.data.set index none,
            mask := b.mask &&& ((2 ^ n - 1) ^^^ (1 <<< index)) }
        match uninit_val with
        | some v => .ok (some v) b'
        | none => .ub

/-- Rust `Block::get_or_else` with the producer modelled as `func : Option α`
(`some v`: the closure returns `v`; `none`: the closure panics).  Mirrors the
source line order: the `is_vacant` check (panicking when `index >= CAPACITY`),
then on the vacant branch `self.mask |= 1 << index` FIRST and only then
`self.data[index].write(func())` — so a panicking producer unwinds with the
mask bit already set while the cell is still uninitialized. -/
def get_or_else (n : Nat) (b : Block α) (index : Nat) (func : Option α) : Res α (Block α) :=
  match is_vacant n b index with
  | .panicked s => .panicked s
  | .ub => .ub
  | .ok vacant _ =>
    if vacant then
      let masked : Block α := { data := b.data, mask := b.mask ||| (1 <<< index) }
      match func with
      | none => .panicked masked
      | some v => .ok v { data := masked.data.set index (some v), mask := masked.mask }
    else
      match get_unchecked_mut b index with
      | .panicked s => .panicked s
      | .ub => .ub
      | .ok v _ => .ok v b

/-- Rust `Index::index` (`block[i]`): `self.get(idx).expect("slot is vacant")` —
the `expect` panics on a vacant (in-range) slot. -/
def index_op (n : Nat) (b : Block α) (index : Nat) : Res α (Block α) :=
  match get n b index with
  | .panicked s => .panicked s
  | .ub => .ub
  | .ok (some v) _ => .ok v b
  | .ok none _ => .panicked b

/-- Rust `IndexMut::index_mut` (`&mut block[i]`): `self.get_mut(idx).expect(..)`. -/
def index_mut_op (n : Nat) (b : Block α) (index : Nat) : Res α (Block α) :=
  match get_mut n b index with
  | .panicked s => .panicked s
  | .ub => .ub
  | .ok (some v) _ => .ok v b
  | .ok none _ => .panicked b

/-- The mask/slot invariant of spec §3: bit `i` of the mask is set iff cell
`i` holds a constructed value (together with the structural facts that the
array has length `n` and the mask fits in `n` bits). -/
def maskConsistent (n : Nat) (b : Block α) : Prop :=
  b.data.length = n ∧ b.mask < 2 ^ n ∧
    ∀ i < n, b.mask.testBit i = (b.data.getD i none).isSome

instance (n : Nat) (b : Block α) : Decidable (maskConsistent n b) := by
  unfold maskConsistent; infer_instance

/-- Rust `u*::trailing_zeros` of a width-`n` value: the position of the lowest set
bit, or `n` (`BITS`) when the value is zero. -/
def trailing_zeros (n m : Nat) : Nat :=
  ((List.range n).find? fun i => m.testBit i).getD n

/-- Rust `u*::leading_zeros` of a width-`n` value: zeros counted from the most
significant bit; `n` when the value is zero. -/
def leading_zeros (n m : Nat) : Nat :=
  n - ((((List.range n).filter fun i => m.testBit i).getLast?.map (· + 1)).getD 0)

/-- Rust `Block::lowest_index`: `mask.trailing_zeros()`, mapped to `None` when it
equals `CAPACITY` (i.e. the mask is zero). -/
def lowest_index (n mask : Nat) : Option Nat :=
  let index := trailing_zeros n mask
  if index < n then some index else none

/-- Rust `Block::highest_index`: `CAPACITY - mask.leading_zeros()`, with `0`
(mask zero) mapped to `None` and otherwise decremented by one. -/
def highest_index (n mask : Nat) : Option Nat :=
  let index := n - leading_zeros n mask
  if index = 0 then none else some (index - 1)

/-- Rust `Block::lowest_occupied_index`: `lowest_index(mask)`. -/
def lowest_occupied_index (n : Nat) (b : Block α) : Option Nat :=
  lowest_index n b.mask

/-- Rust `Block::highest_occupied_index`: `highest_index(mask)`. -/
def highest_occupied_index (n : Nat) (b : Block α) : Option Nat :=
  highest_index n b.mask

/-- Rust `Block::lowest_vacant_index`: `lowest_index(!mask)` (width-`n` complement). -/
def lowest_vacant_index (n : Nat) (b : Block α) : Option Nat :=
  lowest_index n ((2 ^ n - 1) ^^^ b.mask)

/-- Rust `Block::highest_vacant_index`: `highest_index(!mask)` (width-`n` complement). -/
def highest_vacant_index (n : Nat) (b : Block α) : Option Nat :=
  highest_index n ((2 ^ n - 1) ^^^ b.mask)

/-- Rust `Block::insert_at_first_vacancy`: insert at `lowest_vacant_index` when one
exists (`Ok` of `insert`'s return), else `Err(value)` with the block untouched. -/
def insert_at_first_vacancy (n : Nat) (b : Block α) (value : α) :
    Res (Except α (Option α)) (Block α) :=
  match lowest_vacant_index n b with
  | some index =>
    match insert n b index value with
    | .panicked s => .panicked s
    | .ub => .ub
    | .ok prev b' => .ok (.ok prev) b'
  | none => .ok (.error value) b

/-- Rust `Block::insert_at_last_vacancy`: insert at `highest_vacant_index` when one
exists (`Ok` of `insert`'s return), else `Err(value)` with the block untouched. -/
def insert_at_last_vacancy (n : Nat) (b : Block α) (value : α) :
    Res (Except α (Option α)) (Block α) :=
  match highest_vacant_index n b with
  | some index =>
    match insert n b index value with
    | .panicked s => .panicked s
    | .ub => .ub
    | .ok prev b' => .ok (.ok prev) b'
  | none => .ok (.error value) b

/-!
Iterators (`src/iter.rs`).  All three iterator structs hold
`iter: Enumerate<…over MaybeUninit<T> cells…>` plus a copy of the mask, and
their `next` runs the same loop: pop the next `(i, item)` pair, yield the
item when `mask & (1 << i) != 0` (via `assume_init{,_ref,_mut}`), skip it
otherwise.  We model the iterator state once; the by-value, shared and
mutable flavours differ only in how the yielded cell is read.
-/

/-- Iterator state: the remaining enumerated cells plus the mask copy. -/
structure BlockIter (α : Type) where
  iter : List (Nat × Option α)
  mask : Nat
deriving Repr, DecidableEq

/-- Rust `IntoIterator for Block` (by value): wraps the block in `ManuallyDrop`
(suppressing the block's own `Drop`), reads the data array out, and builds
the iterator from `data.into_iter().enumerate()` and the mask. -/
def into_iter (b : Block α) : BlockIter α :=
  { iter := b.data.enum, mask := b.mask }

/-- Rust `Block::iter` / `IntoIterator for &Block`: `data.iter().enumerate()`
plus a copy of the mask; the block itself is only borrowed, never changed. -/
def Block.iter (b : Block α) : BlockIter α :=
  { iter := b.data.enum, mask := b.mask }

/-- The loop body of `next`, recursing over the remaining enumerated cells:
pop `(i, item)`; yield it when `mask & (1 << i) != 0`, skip it otherwise. -/
def iterNextGo (mask : Nat) : List (Nat × Option α) → Option (Option α) × List (Nat × Option α)
  | [] => (none, [])
  | (i, item) :: rest =>
    if mask &&& (1 <<< i) != 0 then (some item, rest)
    else iterNextGo mask rest

/-- One call of `next` on any of the three iterators: `(none, _)` when the
inner enumeration is exhausted; otherwise the first remaining cell whose mask
bit is set is yielded (`(some item, _)`, where the cell `item : Option α` is
`none` exactly when the `assume_init` call would be undefined behavior). -/
def iterNext (it : BlockIter α) : Option (Option α) × BlockIter α :=
  let out := iterNextGo it.mask it.iter
  (out.1, { iter := out.2, mask := it.mask })

/-- Calling `next` up to `k` times (stopping early on exhaustion), returning
the yielded cells and the iterator state left behind. -/
def iterTake : Nat → BlockIter α → List (Option α) × BlockIter α
  | 0, it => ([], it)
  | Nat.succ k, it =>
    match iterNext it with
    | (none, it') => ([], it')
    | (some x, it') =>
      let out := iterTake k it'
      (x :: out.1, out.2)

/-- Running the `next` loop to exhaustion over the remaining cells: the full
sequence of yielded cells. -/
def iterCollectGo (mask : Nat) : List (Nat × Option α) → List (Option α)
  | [] => []
  | (i, item) :: rest =>
    if mask &&& (1 <<< i) != 0 then item :: iterCollectGo mask rest
    else iterCollectGo mask rest

/-- Everything an iterator yields until `next` first returns `none`. -/
def iterCollect (it : BlockIter α) : List (Option α) :=
  iterCollectGo it.mask it.iter

/-- Dropping one `MaybeUninit<T>` cell: `MaybeUninit` suppresses drop glue,
so no value is ever destroyed, initialized or not. -/
def maybeUninitDropDestroys : Option α → List α :=
  fun _ => []

/-- The values destroyed when a by-value iterator (`Block8IntoIter` etc.) is
dropped.  `src/iter.rs` declares no `Drop` impl for the by-value iterator, so
dropping it runs only the compiler-generated drop glue of its fields: the
inner `Enumerate<array::IntoIter<MaybeUninit<T>, N>>` drops each remaining
`MaybeUninit<T>` element, destroying nothing. -/
def intoIterDropDestroys (it : BlockIter α) : List α :=
  (it.iter.map fun p => maybeUninitDropDestroys p.2).flatten

/-- Rust `Clone::clone`, with the element-level clone modelled as `c : α → Option α`
(`none`: that element's `clone` panics).  Mirrors the source order: start from
`Self::default()`, copy the WHOLE mask first (`block.mask = self.mask`), then
for each non-vacant index clone the element into the fresh block.  A normal
return is `ok clone b`; a panicking element clone returns `panicked partial`
where `partial` is the partially built block observable during unwinding
(full mask, but only the already-visited occupied cells constructed).
`cloneStep` is the body of the source's `for idx in 0..CAPACITY` loop. -/
def cloneStep (n : Nat) (b : Block α) (c : α → Option α)
    (acc : Res Unit (Block α)) (idx : Nat) : Res Unit (Block α) :=
  match acc with
  | .panicked s => .panicked s
  | .ub => .ub
  | .ok _ blk =>
    match is_vacant n b idx with
    | .panicked s => .panicked s
    | .ub => .ub
    | .ok vacant _ =>
      if vacant then .ok () blk
      else
        match get_unchecked b idx with
        | .panicked s => .panicked s
        | .ub => .ub
        | .ok v _ =>
          match c v with
          | none => .panicked blk
          | some cv => .ok () { data := blk.data.set idx (some cv), mask := blk.mask }

def cloneBlock (n : Nat) (b : Block α) (c : α → Option α) : Res (Block α) (Block α) :=
  match (List.range n).foldl (cloneStep n b c)
      (Res.ok () { data := List.replicate n none, mask := b.mask }) with
  | .ok _ blk => .ok blk b
  | .panicked s => .panicked s
  | .ub => .ub

/-!  Concrete blocks used to evaluate the model (mirroring the crate's tests).  -/

/-- A fully occupied `Block8` of naturals, as built by
`Block8::from([10, 20, 30, 40, 50, 60, 70, 80])`. -/
def fullBlock8 : Block Nat := Block.ofArray 8 [10, 20, 30, 40, 50, 60, 70, 80]

/-- The `Block8` holding `10, 8, 1` at indices `0, 1, 2` with the rest vacant
(spec §8's iteration-order example). -/
def block108 : Block Nat :=
  { data := [some 10, some 8, some 1, none, none, none, none, none], mask := 7 }

/-- The state observable while `get_or_else(0, func)` unwinds on an empty
`Block8` whose producer `func` panics: mask bit 0 set, slot 0 uninitialized. -/
def panicState8 : Block Nat := { data := List.replicate 8 none, mask := 1 }

/-- The partially built clone observable while `Clone::clone` of `block108`
unwinds when the element-level clone panics on the value `1` (slot 2): the
full source mask `0b111` was copied up front but slot 2 was never written. -/
def partialClone8 : Block Nat :=
  { data := [some 10, some 8, none, none, none, none, none, none], mask := 7 }

/-- An otherwise-empty `Block8` holding `42` at slot 3, the result of
`insert(3, 42)` on an empty block. -/
def slot3Block : Block Nat :=
  { data := [none, none, none, some 42, none, none, none, none], mask := 8 }

/-- An otherwise-empty `Block8` holding `7` at slot 3, the result of
replacing `slot3Block`'s value via `insert(3, 7)`. -/
def slot3Block7 : Block Nat :=
  { data := [none, none, none, some 7, none, none, none, none], mask := 8 }

/-- A `Block8` occupied exactly at indices `{2, 5, 7}` (mask `0b10100100`),
spec §8's bit-scan example. -/
def scatterBlock8 : Block Nat :=
  { data := [none, none, some 2, none, none, some 5, none, some 7], mask := 164 }

/-!  Helper lemmas about bits, masks, and list scans.  -/

lemma and_one_shift (m i : Nat) : m &&& (1 <<< i) = (m.testBit i).toNat * 2 ^ i := by
  rw [Nat.shiftLeft_eq, one_mul, Nat.and_two_pow]

lemma and_one_shift_eq_zero (m i : Nat) : m &&& (1 <<< i) = 0 ↔ m.testBit i = false := by
  rw [and_one_shift]
  cases h : m.testBit i
  · simp
  · have hpos : 0 < 2 ^ i := Nat.pos_pow_of_pos i (by norm_num)
    simp only [Bool.toNat_true, one_mul]
    constructor
    · intro hz; omega
    · intro hf; cases hf

lemma beq_and_one_shift (m i : Nat) : (m &&& (1 <<< i) == 0) = !(m.testBit i) := by
  cases h : m.testBit i
  · simp [and_one_shift_eq_zero, h]
  · simp only [Bool.not_true]
    rw [beq_eq_false_iff_ne]
    intro hz
    rw [(and_one_shift_eq_zero m i).mp hz] at h
    cases h

lemma bne_and_one_shift (m i : Nat) : (m &&& (1 <<< i) != 0) = m.testBit i := by
  rw [bne, beq_and_one_shift, Bool.not_not]

lemma testBit_ge {m n j : Nat} (h : m < 2 ^ n) (hj : n ≤ j) : m.testBit j = false :=
  Nat.testBit_lt_two_pow (lt_of_lt_of_le h (Nat.pow_le_pow_right (by norm_num) hj))

lemma eq_allOnes_of_testBit {m n : Nat} (h : m < 2 ^ n)
    (hb : ∀ j < n, m.testBit j = true) : m = 2 ^ n - 1 := by
  apply Nat.eq_of_testBit_eq
  intro i
  rw [Nat.testBit_two_pow_sub_one]
  by_cases hi : i < n
  · simp [hb i hi, hi]
  · simp [testBit_ge h (le_of_not_lt hi), hi]

lemma eq_zero_of_testBit {m n : Nat} (h : m < 2 ^ n)
    (hb : ∀ j < n, m.testBit j = false) : m = 0 := by
  apply Nat.eq_of_testBit_eq
  intro i
  rw [Nat.zero_testBit]
  by_cases hi : i < n
  · exact hb i hi
  · exact testBit_ge h (le_of_not_lt hi)

lemma testBit_compl {n m : Nat} (hm : m < 2 ^ n) (i : Nat) :
    ((2 ^ n - 1) ^^^ m).testBit i = (decide (i < n) && !(m.testBit i)) := by
  rw [Nat.testBit_xor, Nat.testBit_two_pow_sub_one]
  by_cases hi : i < n
  · simp [hi]
  · simp [hi, testBit_ge hm (le_of_not_lt hi)]

lemma compl_lt_two_pow {n m : Nat} (hm : m < 2 ^ n) : (2 ^ n - 1) ^^^ m < 2 ^ n :=
  Nat.xor_lt_two_pow (by have := Nat.pos_pow_of_pos n (show 0 < 2 by norm_num); omega) hm

lemma testBit_or_shift (m i j : Nat) :
    (m ||| (1 <<< i)).testBit j = (m.testBit j || decide (i = j)) := by
  rw [Nat.testBit_or, Nat.shiftLeft_eq, one_mul, Nat.testBit_two_pow]

lemma testBit_clear {n : Nat} (m i : Nat) {j : Nat} (hj : j < n) :
    (m &&& ((2 ^ n - 1) ^^^ (1 <<< i))).testBit j = (m.testBit j && !(decide (i = j))) := by
  rw [Nat.testBit_and, Nat.testBit_xor, Nat.testBit_two_pow_sub_one,
    Nat.shiftLeft_eq, one_mul, Nat.testBit_two_pow]
  simp [hj]

lemma getD_set_self (l : List (Option α)) (i : Nat) (x : Option α) (h : i < l.length) :
    (l.set i x).getD i none = x := by
  rw [List.getD_eq_getElem?_getD, List.getElem?_set_self h]
  rfl

lemma getD_set_ne (l : List (Option α)) {i j : Nat} (x : Option α) (h : i ≠ j) :
    (l.set i x).getD j none = l.getD j none := by
  rw [List.getD_eq_getElem?_getD, List.getD_eq_getElem?_getD, List.getElem?_set_ne h]

lemma range_find?_eq_some {p : Nat → Bool} : ∀ {n i : Nat},
    (List.range n).find? p = some i ↔ i < n ∧ p i = true ∧ ∀ j < i, p j = false := by
  intro n
  induction n with
  | zero => intro i; simp
  | succ n ih =>
    intro i
    rw [List.range_succ, List.find?_append]
    cases h : (List.range n).find? p with
    | some x =>
      simp only [Option.or]
      constructor
      · intro hx
        injection hx with hx
        subst hx
        obtain ⟨hlt, hp, hmin⟩ := ih.mp h
        exact ⟨Nat.lt_succ_of_lt hlt, hp, hmin⟩
      · rintro ⟨hi, hp, hmin⟩
        rcases Nat.lt_succ_iff_lt_or_eq.mp hi with hi' | rfl
        · have := ih.mpr ⟨hi', hp, hmin⟩
          rw [h] at this
          exact this
        · have hpx := List.find?_some h
          have hxlt := List.mem_range.mp (List.mem_of_find?_eq_some h)
          rw [hmin x hxlt] at hpx
          cases hpx
    | none =>
      simp only [Option.none_or]
      have hall : ∀ j < n, p j = false := by
        intro j hj
        have := List.find?_eq_none.mp h j (List.mem_range.mpr hj)
        simpa using this
      cases hpn : p n with
      | true =>
        simp only [List.find?_cons, hpn]
        constructor
        · intro hx
          injection hx with hx
          subst hx
          exact ⟨Nat.lt_succ_self _, hpn, hall⟩
        · rintro ⟨hi, hp, hmin⟩
          rcases Nat.lt_succ_iff_lt_or_eq.mp hi with hi' | rfl
          · rw [hall i hi'] at hp; cases hp
          · rfl
      | false =>
        simp only [List.find?_cons, hpn, List.find?_nil]
        constructor
        · intro hx; cases hx
        · rintro ⟨hi, hp, hmin⟩
          rcases Nat.lt_succ_iff_lt_or_eq.mp hi with hi' | rfl
          · rw [hall i hi'] at hp; cases hp
          · rw [hpn] at hp; cases hp

lemma range_find?_eq_none {p : Nat → Bool} {n : Nat} :
    (List.range n).find? p = none ↔ ∀ j < n, p j = false := by
  rw [List.find?_eq_none]
  constructor
  · intro h j hj
    simpa using h j (List.mem_range.mpr hj)
  · intro h x hx
    simp [h x (List.mem_range.mp hx)]

lemma range_filter_getLast?_eq_some {p : Nat → Bool} : ∀ {n i : Nat},
    ((List.range n).filter p).getLast? = some i ↔
      i < n ∧ p i = true ∧ ∀ j, i < j → j < n → p j = false := by
  intro n
  induction n with
  | zero => intro i; simp
  | succ n ih =>
    intro i
    rw [List.range_succ, List.filter_append]
    cases hpn : p n with
    | true =>
      have hfil : List.filter p [n] = [n] := by simp [hpn]
      rw [hfil, List.getLast?_concat]
      constructor
      · intro hx
        injection hx with hx
        subst hx
        exact ⟨Nat.lt_succ_self _, hpn, fun j hj hj' => absurd hj (by omega)⟩
      · rintro ⟨hi, hp, hmax⟩
        rcases Nat.lt_succ_iff_lt_or_eq.mp hi with hi' | rfl
        · rw [hmax n hi' (Nat.lt_succ_self n)] at hpn; cases hpn
        · rfl
    | false =>
      have hfil : List.filter p [n] = [] := by simp [hpn]
      rw [hfil, List.append_nil, ih]
      constructor
      · rintro ⟨hi, hp, hmax⟩
        refine ⟨Nat.lt_succ_of_lt hi, hp, fun j hj hj' => ?_⟩
        rcases Nat.lt_succ_iff_lt_or_eq.mp hj' with hj'' | rfl
        · exact hmax j hj hj''
        · exact hpn
      · rintro ⟨hi, hp, hmax⟩
        rcases Nat.lt_succ_iff_lt_or_eq.mp hi with hi' | rfl
        · exact ⟨hi', hp, fun j hj hj' => hmax j hj (Nat.lt_succ_of_lt hj')⟩
        · rw [hpn] at hp; cases hp

lemma range_filter_getLast?_eq_none {p : Nat → Bool} {n : Nat} :
    ((List.range n).filter p).getLast? = none ↔ ∀ j < n, p j = false := by
  rw [List.getLast?_eq_none_iff, List.filter_eq_nil_iff]
  constructor
  · intro h j hj
    simpa using h j (List.mem_range.mpr hj)
  · intro h x hx
    simp [h x (List.mem_range.mp hx)]

lemma lowest_index_eq_some {n m i : Nat} :
    lowest_index n m = some i ↔ i < n ∧ m.testBit i = true ∧ ∀ j < i, m.testBit j = false := by
  unfold lowest_index trailing_zeros
  cases h : (List.range n).find? (fun j => m.testBit j) with
  | some x =>
    obtain ⟨hxn, hpx, hmin⟩ := range_find?_eq_some.mp h
    show (if x < n then some x else none) = some i ↔ _
    rw [if_pos hxn]
    constructor
    · intro he
      injection he with he
      subst he
      exact ⟨hxn, hpx, hmin⟩
    · rintro ⟨hi, hp, hmin'⟩
      have hxi : x = i := by
        rcases lt_trichotomy x i with hlt | heq | hgt
        · rw [hmin' x hlt] at hpx; cases hpx
        · exact heq
        · rw [hmin i hgt] at hp; cases hp
      rw [hxi]
  | none =>
    have hall := range_find?_eq_none.mp h
    show (if n < n then some n else none) = some i ↔ _
    rw [if_neg (lt_irrefl n)]
    constructor
    · intro he; cases he
    · rintro ⟨hi, hp, _⟩
      rw [hall i hi] at hp
      cases hp

lemma lowest_index_eq_none {n m : Nat} :
    lowest_index n m = none ↔ ∀ j < n, m.testBit j = false := by
  unfold lowest_index trailing_zeros
  cases h : (List.range n).find? (fun j => m.testBit j) with
  | some x =>
    obtain ⟨hxn, hpx, _⟩ := range_find?_eq_some.mp h
    show (if x < n then some x else none) = none ↔ _
    rw [if_pos hxn]
    constructor
    · intro he; cases he
    · intro hall
      rw [hall x hxn] at hpx
      cases hpx
  | none =>
    have hall := range_find?_eq_none.mp h
    show (if n < n then some n else none) = none ↔ _
    rw [if_neg (lt_irrefl n)]
    exact ⟨fun _ => hall, fun _ => rfl⟩

lemma highest_index_eq_some {n m i : Nat} :
    highest_index n m = some i ↔
      i < n ∧ m.testBit i = true ∧ ∀ j, i < j → j < n → m.testBit j = false := by
  unfold highest_index leading_zeros
  cases h : ((List.range n).filter fun j => m.testBit j).getLast? with
  | some x =>
    obtain ⟨hxn, hpx, hmax⟩ := range_filter_getLast?_eq_some.mp h
    show (if n - (n - (x + 1)) = 0 then none else some (n - (n - (x + 1)) - 1)) = some i ↔ _
    rw [Nat.sub_sub_self (by omega : x + 1 ≤ n)]
    rw [if_neg (Nat.succ_ne_zero x)]
    simp only [Nat.add_sub_cancel]
    constructor
    · intro he
      injection he with he
      subst he
      exact ⟨hxn, hpx, hmax⟩
    · rintro ⟨hi, hp, hmax'⟩
      have hxi : x = i := by
        rcases lt_trichotomy x i with hlt | heq | hgt
        · rw [hmax i hlt hi] at hp; cases hp
        · exact heq
        · rw [hmax' x hgt hxn] at hpx; cases hpx
      rw [hxi]
  | none =>
    have hall := range_filter_getLast?_eq_none.mp h
    show (if n - (n - 0) = 0 then none else some (n - (n - 0) - 1)) = some i ↔ _
    rw [Nat.sub_zero, Nat.sub_self, if_pos rfl]
    constructor
    · intro he; cases he
    · rintro ⟨hi, hp, _⟩
      rw [hall i hi] at hp
      cases hp

lemma highest_index_eq_none {n m : Nat} :
    highest_index n m = none ↔ ∀ j < n, m.testBit j = false := by
  unfold highest_index leading_zeros
  cases h : ((List.range n).filter fun j => m.testBit j).getLast? with
  | some x =>
    obtain ⟨hxn, hpx, _⟩ := range_filter_getLast?_eq_some.mp h
    show (if n - (n - (x + 1)) = 0 then none else some (n - (n - (x + 1)) - 1)) = none ↔ _
    rw [Nat.sub_sub_self (by omega : x + 1 ≤ n)]
    rw [if_neg (Nat.succ_ne_zero x)]
    constructor
    · intro he; cases he
    · intro hall
      rw [hall x hxn] at hpx
      cases hpx
  | none =>
    have hall := range_filter_getLast?_eq_none.mp h
    show (if n - (n - 0) = 0 then none else some (n - (n - 0) - 1)) = none ↔ _
    rw [Nat.sub_zero, Nat.sub_self, if_pos rfl]
    exact ⟨fun _ => hall, fun _ => rfl⟩

/-!  Equations for the core operations under the mask/slot invariant.  -/

lemma is_vacant_eq {n : Nat} (b : Block α) {i : Nat} (hi : i < n) :
    is_vacant n b i = .ok (!(b.mask.testBit i)) b := by
  unfold is_vacant
  rw [if_pos hi, beq_and_one_shift]

lemma is_vacant_oob {n : Nat} (b : Block α) {i : Nat} (hi : n ≤ i) :
    is_vacant n b i = .panicked b := by
  unfold is_vacant
  rw [if_neg (by omega)]

lemma data_get?_eq {n : Nat} {b : Block α} (hlen : b.data.length = n) {i : Nat} (hi : i < n) :
    b.data.get? i = some (b.data.getD i none) := by
  rw [List.get?_eq_getElem?, List.getD_eq_getElem?_getD,
    List.getElem?_eq_getElem (by omega)]
  rfl

lemma cell_isSome {n : Nat} {b : Block α} (hc : maskConsistent n b) {i : Nat} (hi : i < n)
    (hbit : b.mask.testBit i = true) : ∃ v, b.data.getD i none = some v := by
  have hs := hc.2.2 i hi
  rw [hbit] at hs
  cases hcell : b.data.getD i none with
  | none => rw [hcell] at hs; cases hs
  | some v => exact ⟨v, rfl⟩

lemma cell_isNone {n : Nat} {b : Block α} (hc : maskConsistent n b) {i : Nat} (hi : i < n)
    (hbit : b.mask.testBit i = false) : b.data.getD i none = none := by
  have hs := hc.2.2 i hi
  rw [hbit] at hs
  cases hcell : b.data.getD i none with
  | none => rfl
  | some v => rw [hcell] at hs; cases hs

lemma insert_eq {n : Nat} {b : Block α} {i : Nat} (hc : maskConsistent n b) (hi : i < n)
    (v : α) :
    insert n b i v = .ok (if b.mask.testBit i then b.data.getD i none else none)
      { data := b.data.set i (some v), mask := b.mask ||| (1 <<< i) } := by
  unfold insert
  rw [is_vacant_eq b hi, data_get?_eq hc.1 hi]
  cases hbit : b.mask.testBit i with
  | false => simp [hbit]
  | true =>
    obtain ⟨w, hw⟩ := cell_isSome hc hi hbit
    rw [hw]
    simp [hbit, hw]

lemma remove_eq_vacant {n : Nat} (b : Block α) {i : Nat} (hi : i < n)
    (hbit : b.mask.testBit i = false) : remove n b i = .ok none b := by
  unfold remove
  rw [is_vacant_eq b hi, hbit]
  rfl

lemma remove_eq_occupied {n : Nat} {b : Block α} (hc : maskConsistent n b) {i : Nat}
    (hi : i < n) (hbit : b.mask.testBit i = true) :
    ∃ v, b.data.getD i none = some v ∧
      remove n b i = .ok (some v)
        { data := b.data.set i none, mask := b.mask &&& ((2 ^ n - 1) ^^^ (1 <<< i)) } := by
  obtain ⟨v, hv⟩ := cell_isSome hc hi hbit
  refine ⟨v, hv, ?_⟩
  unfold remove
  rw [is_vacant_eq b hi, hbit, data_get?_eq hc.1 hi, hv]
  rfl

lemma get_eq_vacant {n : Nat} (b : Block α) {i : Nat} (hi : i < n)
    (hbit : b.mask.testBit i = false) : get n b i = .ok none b := by
  unfold get
  rw [is_vacant_eq b hi, hbit]
  rfl

lemma get_eq_occupied {n : Nat} {b : Block α} (hc : maskConsistent n b) {i : Nat}
    (hi : i < n) (hbit : b.mask.testBit i = true) :
    ∃ v, b.data.getD i none = some v ∧ get n b i = .ok (some v) b := by
  obtain ⟨v, hv⟩ := cell_isSome hc hi hbit
  refine ⟨v, hv, ?_⟩
  unfold get get_unchecked
  rw [is_vacant_eq b hi, hbit, data_get?_eq hc.1 hi, hv]
  rfl

lemma maskConsistent_insert {n : Nat} {b : Block α} (hc : maskConsistent n b) {i : Nat}
    (hi : i < n) (v : α) :
    maskConsistent n { data := b.data.set i (some v), mask := b.mask ||| (1 <<< i) } := by
  refine ⟨by simp [hc.1], ?_, ?_⟩
  · exact Nat.or_lt_two_pow hc.2.1
      (by rw [Nat.shiftLeft_eq, one_mul]; exact Nat.pow_lt_pow_right (by norm_num) hi)
  · intro j hj
    rw [testBit_or_shift]
    by_cases hij : i = j
    · subst hij
      rw [getD_set_self b.data i (some v) (by rw [hc.1]; exact hi)]
      simp
    · rw [getD_set_ne b.data (some v) hij]
      simp [hij, hc.2.2 j hj]

lemma maskConsistent_remove {n : Nat} {b : Block α} (hc : maskConsistent n b) {i : Nat}
    (hi : i < n) :
    maskConsistent n
      { data := b.data.set i none, mask := b.mask &&& ((2 ^ n - 1) ^^^ (1 <<< i)) } := by
  refine ⟨by simp [hc.1], ?_, ?_⟩
  · exact Nat.and_lt_two_pow _
      (compl_lt_two_pow
        (by rw [Nat.shiftLeft_eq, one_mul]; exact Nat.pow_lt_pow_right (by norm_num) hi))
  · intro j hj
    rw [testBit_clear _ _ hj]
    by_cases hij : i = j
    · subst hij
      rw [getD_set_self b.data i none (by rw [hc.1]; exact hi)]
      simp
    · rw [getD_set_ne b.data none hij]
      simp [hij, hc.2.2 j hj]

lemma count_ones_allOnes (n : Nat) : count_ones n (2 ^ n - 1) = n := by
  unfold count_ones
  have hfil : (List.range n).filter (fun i => (2 ^ n - 1).testBit i) = List.range n := by
    apply List.filter_eq_self.mpr
    intro a ha
    rw [Nat.testBit_two_pow_sub_one]
    simp [List.mem_range.mp ha]
  rw [hfil, List.length_range]

/-!  Lemmas about the iterator loop.  -/

lemma iterCollectGo_eq (mask : Nat) (l : List (Nat × Option α)) :
    iterCollectGo mask l = (l.filter fun p => mask &&& (1 <<< p.1) != 0).map Prod.snd := by
  induction l with
  | nil => rfl
  | cons a t ih =>
    obtain ⟨i, item⟩ := a
    cases hb : (mask &&& (1 <<< i) != 0) <;>
      simp [iterCollectGo, List.filter_cons, hb, ih]

lemma iterCollectGo_enumFrom (mask : Nat) (l : List (Option α)) : ∀ k,
    iterCollectGo mask (List.enumFrom k l)
      = ((List.range l.length).filter fun i => mask &&& (1 <<< (k + i)) != 0).map
          (fun i => l.getD i none) := by
  induction l with
  | nil => intro k; rfl
  | cons a t ih =>
    intro k
    have hfil : List.filter ((fun i => mask &&& (1 <<< (k + i)) != 0) ∘ Nat.succ)
        (List.range t.length)
        = List.filter (fun i => mask &&& (1 <<< (k + 1 + i)) != 0) (List.range t.length) := by
      apply List.filter_congr
      intro x _
      show (mask &&& (1 <<< (k + (x + 1))) != 0) = (mask &&& (1 <<< (k + 1 + x)) != 0)
      rw [show k + (x + 1) = k + 1 + x by omega]
    cases hb : (mask &&& (1 <<< k) != 0) with
    | true =>
      have hL : iterCollectGo mask (List.enumFrom k (a :: t))
          = a :: iterCollectGo mask (List.enumFrom (k + 1) t) := by
        rw [List.enumFrom_cons]
        simp [iterCollectGo, hb]
      rw [hL, ih (k + 1), List.length_cons, List.range_succ_eq_map, List.filter_cons]
      rw [if_pos (by rw [Nat.add_zero]; exact hb)]
      rw [List.filter_map Nat.succ, List.map_cons, List.map_map, hfil]
      congr 1
    | false =>
      have hL : iterCollectGo mask (List.enumFrom k (a :: t))
          = iterCollectGo mask (List.enumFrom (k + 1) t) := by
        rw [List.enumFrom_cons]
        simp [iterCollectGo, hb]
      rw [hL, ih (k + 1), List.length_cons, List.range_succ_eq_map, List.filter_cons]
      rw [if_neg (by rw [Nat.add_zero, hb]; simp)]
      rw [List.filter_map Nat.succ, List.map_map, hfil]
      apply List.map_congr_left
      intro x _
      show t.getD x none = (a :: t).getD (x + 1) none
      rw [List.getD_cons_succ]

lemma iterCollect_iter {n : Nat} (b : Block α) (hlen : b.data.length = n) :
    iterCollect (Block.iter b)
      = ((List.range n).filter fun i => b.mask.testBit i).map (fun i => b.data.getD i none) := by
  show iterCollectGo b.mask b.data.enum = _
  rw [show b.data.enum = List.enumFrom 0 b.data from rfl]
  rw [iterCollectGo_enumFrom, hlen]
  rw [List.filter_congr (fun x _ => by
    show (b.mask &&& (1 <<< (0 + x)) != 0) = b.mask.testBit x
    rw [Nat.zero_add, bne_and_one_shift])]

lemma get_mut_eq_vacant {n : Nat} (b : Block α) {i : Nat} (hi : i < n)
    (hbit : b.mask.testBit i = false) : get_mut n b i = .ok none b := by
  unfold get_mut
  rw [is_vacant_eq b hi, hbit]
  rfl

/-!  Claim theorems.  -/

/-- C1 (code bug): the spec demands that discarding a partially consumed
owning iterator destroys each of the `len() − k` not-yet-yielded occupied
values exactly once, and the crate's own test
`partial_into_iter_drops_remaining` asserts the same — but the by-value
iterator in `src/iter.rs` has no `Drop` impl and its cells are `MaybeUninit`,
so its drop glue destroys nothing.  At the failing input (a fully occupied
`Block8`, `k = 3`): 3 items were yielded, 5 occupied cells remain un-yielded
in the discarded iterator, yet the set of values destroyed by dropping it is
empty, leaking all 5 values instead of releasing each exactly once. -/
theorem into_iter_partial_drop_leaks :
    len 8 fullBlock8 = 8 ∧
    (iterTake 3 (into_iter fullBlock8)).1 = [some 10, some 20, some 30] ∧
    ((iterTake 3 (into_iter fullBlock8)).2.iter.filter fun p =>
        (iterTake 3 (into_iter fullBlock8)).2.mask.testBit p.1).length = 5 ∧
    intoIterDropDestroys (iterTake 3 (into_iter fullBlock8)).2 = [] := by
  decide

/-- C2 (code bug): the spec demands the mask/slot invariant also during any
panic unwind, but `get_or_else` sets `self.mask |= 1 << index` BEFORE calling
the producer, so a panicking producer on an empty `Block8` unwinds in state
`panicState8` (mask bit 0 set, slot 0 unconstructed), violating the
invariant; likewise `Clone::clone` copies the whole mask before cloning the
elements, so an element clone that panics at slot 2 of `block108` unwinds
with the partially built clone `partialClone8` (mask `0b111`, slot 2
unconstructed) violating the invariant. -/
theorem get_or_else_panic_breaks_invariant :
    maskConsistent 8 (Block.new 8 : Block Nat) ∧
    get_or_else 8 (Block.new 8 : Block Nat) 0 none = .panicked panicState8 ∧
    ¬ maskConsistent 8 panicState8 ∧
    maskConsistent 8 block108 ∧
    cloneBlock 8 block108 (fun v => if v == 1 then none else some v)
      = .panicked partialClone8 ∧
    ¬ maskConsistent 8 partialClone8 := by
  decide

/-- C10: for every index at or beyond the data array's length `N`, the
"unchecked" accessors panic on the safe array indexing `self.data[index]`
before ever reaching `assume_init`: the result is `panicked` (with the block
untouched), never the `ub` outcome.  Their unchecked contract thus relaxes
only the occupancy check, not the index bounds check. -/
theorem get_unchecked_oob_panics {n : Nat} (b : Block α) {i : Nat}
    (hlen : b.data.length = n) (hi : n ≤ i) :
    get_unchecked b i = .panicked b ∧ get_unchecked_mut b i = .panicked b := by
  have hnone : b.data.get? i = none := by
    rw [List.get?_eq_getElem?]
    exact List.getElem?_eq_none (by omega)
  refine ⟨?_, ?_⟩
  · unfold get_unchecked
    rw [hnone]
  · unfold get_unchecked_mut
    rw [hnone]

/-- Witness for C10 at `Block8<Nat>` empty block and index 9. -/
theorem get_unchecked_oob_panics_witness :
    get_unchecked (Block.new 8 : Block Nat) 9 = .panicked (Block.new 8) ∧
    get_unchecked_mut (Block.new 8 : Block Nat) 9 = .panicked (Block.new 8) :=
  get_unchecked_oob_panics (n := 8) (Block.new 8) (by decide) (by decide)

/-- C7: every index-taking operation (`is_vacant`, `get`, `get_mut`,
`insert`, `remove`, `get_or_else`) called with `index >= N` panics — the
result is `panicked b` with the block `b` returned exactly as it was, so the
mask/slot invariant is left intact — and the indexing operators additionally
panic (again with the block unchanged) on an in-range but vacant slot. -/
theorem index_ops_contract_violations {n : Nat} (b : Block α) :
    (∀ i, n ≤ i →
      is_vacant n b i = .panicked b ∧
      get n b i = .panicked b ∧
      get_mut n b i = .panicked b ∧
      (∀ v, insert n b i v = .panicked b) ∧
      remove n b i = .panicked b ∧
      ∀ f, get_or_else n b i f = .panicked b) ∧
    (∀ i, i < n → b.mask.testBit i = false →
      index_op n b i = .panicked b ∧ index_mut_op n b i = .panicked b) := by
  constructor
  · intro i hi
    have hv := is_vacant_oob b hi
    refine ⟨hv, ?_, ?_, ?_, ?_, ?_⟩
    · unfold get
      rw [hv]
    · unfold get_mut
      rw [hv]
    · intro v
      unfold insert
      rw [hv]
    · unfold remove
      rw [hv]
    · intro f
      unfold get_or_else
      rw [hv]
  · intro i hi hbit
    refine ⟨?_, ?_⟩
    · unfold index_op
      rw [get_eq_vacant b hi hbit]
    · unfold index_mut_op
      rw [get_mut_eq_vacant b hi hbit]

/-- Witness for C7: out-of-bounds index 9 on an empty `Block8`, and
indexing-operator access to the vacant slot 3 of `block108`. -/
theorem index_ops_contract_violations_witness :
    is_vacant 8 (Block.new 8 : Block Nat) 9 = .panicked (Block.new 8) ∧
    index_op 8 block108 3 = .panicked block108 :=
  ⟨((index_ops_contract_violations (n := 8) (Block.new 8 : Block Nat)).1 9 (by decide)).1,
    ((index_ops_contract_violations (n := 8) block108).2 3 (by decide) (by decide)).1⟩

/-- C3: for every invariant-satisfying block and every `i < N`,
`insert(i, value)` returns normally with slot `i` now holding `value` and
mask bit `i` set; every other slot and mask bit is unchanged (so the prior
value is never observed in the block again); the returned previous value is
the old slot content when the slot was occupied and `none` when it was
vacant; and the invariant still holds. -/
theorem insert_spec {n : Nat} (b : Block α) {i : Nat} (v : α)
    (hc : maskConsistent n b) (hi : i < n) :
    ∃ prev b', insert n b i v = .ok prev b' ∧
      b'.data.getD i none = some v ∧
      b'.mask.testBit i = true ∧
      (∀ j < n, j ≠ i → b'.data.getD j none = b.data.getD j none ∧
        b'.mask.testBit j = b.mask.testBit j) ∧
      (b.mask.testBit i = true → prev = b.data.getD i none) ∧
      (b.mask.testBit i = false → prev = none) ∧
      maskConsistent n b' := by
  refine ⟨_, _, insert_eq hc hi v, ?_, ?_, ?_, ?_, ?_, maskConsistent_insert hc hi v⟩
  · exact getD_set_self b.data i (some v) (by rw [hc.1]; exact hi)
  · rw [testBit_or_shift]
    simp
  · intro j hj hji
    have hij : i ≠ j := fun he => hji he.symm
    refine ⟨getD_set_ne b.data (some v) hij, ?_⟩
    rw [testBit_or_shift]
    simp [hij]
  · intro hbit
    simp [hbit]
  · intro hbit
    simp [hbit]

/-- Witness for C3: inserting 42 twice at index 3 of an empty `Block8`; the
second call returns the first value, and afterwards the slot holds the
second value. -/
theorem insert_spec_witness :
    (∃ prev b', insert 8 (Block.new 8 : Block Nat) 3 42 = .ok prev b' ∧
      b'.data.getD 3 none = some 42 ∧
      b'.mask.testBit 3 = true ∧
      (∀ j < 8, j ≠ 3 → b'.data.getD j none = (Block.new 8 : Block Nat).data.getD j none ∧
        b'.mask.testBit j = (Block.new 8 : Block Nat).mask.testBit j) ∧
      ((Block.new 8 : Block Nat).mask.testBit 3 = true →
        prev = (Block.new 8 : Block Nat).data.getD 3 none) ∧
      ((Block.new 8 : Block Nat).mask.testBit 3 = false → prev = none) ∧
      maskConsistent 8 b') ∧
    insert 8 (Block.new 8 : Block Nat) 3 42 = .ok none slot3Block ∧
    insert 8 slot3Block 3 7 = .ok (some 42) slot3Block7 :=
  ⟨insert_spec (n := 8) (Block.new 8) 42 (by decide) (by decide), by decide, by decide⟩

/-- C4: for every invariant-satisfying block and `i < N`: on a vacant slot
`remove(i)` returns `none` with the block literally unchanged; on an
occupied slot it returns the stored value, clears mask bit `i` (so `get(i)`
then returns `none`), leaves every other slot and mask bit unchanged, and
preserves the invariant; and after any successful `insert(i, v)` a `remove(i)`
yields `some v` followed by `get(i) = none` (the round-trip). -/
theorem remove_spec {n : Nat} (b : Block α)
    (hc : maskConsistent n b) {i : Nat} (hi : i < n) :
    (b.mask.testBit i = false → remove n b i = .ok none b) ∧
    (b.mask.testBit i = true →
      ∃ v b', b.data.getD i none = some v ∧
        remove n b i = .ok (some v) b' ∧
        b'.mask.testBit i = false ∧
        get n b' i = .ok none b' ∧
        (∀ j < n, j ≠ i → b'.data.getD j none = b.data.getD j none ∧
          b'.mask.testBit j = b.mask.testBit j) ∧
        maskConsistent n b') ∧
    (∀ v prev b₁, insert n b i v = .ok prev b₁ →
      ∃ b₂, remove n b₁ i = .ok (some v) b₂ ∧ get n b₂ i = .ok none b₂) := by
  refine ⟨fun hbit => remove_eq_vacant b hi hbit, ?_, ?_⟩
  · intro hbit
    obtain ⟨v, hv, heq⟩ := remove_eq_occupied hc hi hbit
    have hbit' : (b.mask &&& ((2 ^ n - 1) ^^^ (1 <<< i))).testBit i = false := by
      rw [testBit_clear _ _ hi]
      simp
    refine ⟨v, _, hv, heq, hbit', get_eq_vacant _ hi hbit', ?_, maskConsistent_remove hc hi⟩
    intro j hj hji
    have hij : i ≠ j := fun he => hji he.symm
    refine ⟨getD_set_ne b.data none hij, ?_⟩
    rw [testBit_clear _ _ hj]
    simp [hij]
  · intro v prev b₁ hins
    rw [insert_eq hc hi v] at hins
    injection hins with h1 h2
    subst h2
    have hcIns := maskConsistent_insert hc hi v
    have hbitIns :
        ({ data := b.data.set i (some v), mask := b.mask ||| (1 <<< i) } : Block α).mask.testBit i
          = true := by
      rw [testBit_or_shift]
      simp
    obtain ⟨w, hw, hrem⟩ := remove_eq_occupied hcIns hi hbitIns
    have hwv : w = v := by
      have hset := getD_set_self b.data i (some v) (by rw [hc.1]; exact hi)
      have hw' : (b.data.set i (some v)).getD i none = some w := hw
      rw [hset] at hw'
      injection hw' with hw'
      exact hw'.symm
    subst hwv
    refine ⟨_, hrem, ?_⟩
    apply get_eq_vacant _ hi
    rw [testBit_clear _ _ hi]
    simp

/-- Witness for C4: round-trip at index 3 of an empty `Block8` — insert 42,
remove it back out, observe absence; and removal from a vacant slot leaves
the block untouched. -/
theorem remove_spec_witness :
    remove 8 (Block.new 8 : Block Nat) 3 = .ok none (Block.new 8) ∧
    (∃ b₂, remove 8 slot3Block 3 = .ok (some 42) b₂ ∧ get 8 b₂ 3 = .ok none b₂) :=
  ⟨(remove_spec (n := 8) (Block.new 8) (by decide) (by decide)).1 (by decide),
    (remove_spec (n := 8) (Block.new 8) (by decide) (by decide)).2.2 42 none
      slot3Block (by decide)⟩

/-- C5: for every invariant-satisfying block, when the block is not full
`insert_at_first_vacancy(value)` inserts `value` at the lowest vacant index
(an index `i < N` with bit `i` clear and every lower bit set) and returns
`Ok(None)`, and `insert_at_last_vacancy` does the same at the highest vacant
index; when the block is full (mask all ones) both return `Err(value)` with
the block completely unchanged and `len()` still equal to `N`. -/
theorem at_vacancy_spec {n : Nat} (b : Block α) (v : α) (hc : maskConsistent n b) :
    (b.mask ≠ 2 ^ n - 1 →
      (∃ i b', i < n ∧ b.mask.testBit i = false ∧ (∀ j < i, b.mask.testBit j = true) ∧
        insert_at_first_vacancy n b v = .ok (.ok none) b' ∧
        b'.data.getD i none = some v ∧ b'.mask.testBit i = true ∧ maskConsistent n b') ∧
      (∃ i b', i < n ∧ b.mask.testBit i = false ∧
        (∀ j, i < j → j < n → b.mask.testBit j = true) ∧
        insert_at_last_vacancy n b v = .ok (.ok none) b' ∧
        b'.data.getD i none = some v ∧ b'.mask.testBit i = true ∧ maskConsistent n b')) ∧
    (b.mask = 2 ^ n - 1 →
      insert_at_first_vacancy n b v = .ok (.error v) b ∧
      insert_at_last_vacancy n b v = .ok (.error v) b ∧
      len n b = n) := by
  have hm := hc.2.1
  constructor
  · intro hne
    constructor
    · have hlow : ∃ i, lowest_vacant_index n b = some i := by
        cases h : lowest_vacant_index n b with
        | some i => exact ⟨i, rfl⟩
        | none =>
          exfalso
          apply hne
          apply eq_allOnes_of_testBit hm
          intro j hj
          have hz := lowest_index_eq_none.mp h j hj
          rw [testBit_compl hm j] at hz
          simpa [hj] using hz
      obtain ⟨i, hlowi⟩ := hlow
      obtain ⟨hin, hbitc, hminc⟩ := lowest_index_eq_some.mp hlowi
      have hbit : b.mask.testBit i = false := by
        rw [testBit_compl hm i] at hbitc
        simpa [hin] using hbitc
      have hmin : ∀ j < i, b.mask.testBit j = true := by
        intro j hj
        have hz := hminc j hj
        rw [testBit_compl hm j] at hz
        simpa [show j < n by omega] using hz
      refine ⟨i, _, hin, hbit, hmin, ?_, ?_, ?_, maskConsistent_insert hc hin v⟩
      · unfold insert_at_first_vacancy
        rw [hlowi]
        show (match insert n b i v with
          | Res.panicked s => Res.panicked s
          | Res.ub => Res.ub
          | Res.ok prev b' => Res.ok (Except.ok prev) b') = _
        rw [insert_eq hc hin v]
        simp [hbit]
      · exact getD_set_self b.data i (some v) (by rw [hc.1]; exact hin)
      · rw [testBit_or_shift]
        simp
    · have hhigh : ∃ i, highest_vacant_index n b = some i := by
        cases h : highest_vacant_index n b with
        | some i => exact ⟨i, rfl⟩
        | none =>
          exfalso
          apply hne
          apply eq_allOnes_of_testBit hm
          intro j hj
          have hz := highest_index_eq_none.mp h j hj
          rw [testBit_compl hm j] at hz
          simpa [hj] using hz
      obtain ⟨i, hhighi⟩ := hhigh
      obtain ⟨hin, hbitc, hmaxc⟩ := highest_index_eq_some.mp hhighi
      have hbit : b.mask.testBit i = false := by
        rw [testBit_compl hm i] at hbitc
        simpa [hin] using hbitc
      have hmax : ∀ j, i < j → j < n → b.mask.testBit j = true := by
        intro j hij hjn
        have hz := hmaxc j hij hjn
        rw [testBit_compl hm j] at hz
        simpa [hjn] using hz
      refine ⟨i, _, hin, hbit, hmax, ?_, ?_, ?_, maskConsistent_insert hc hin v⟩
      · unfold insert_at_last_vacancy
        rw [hhighi]
        show (match insert n b i v with
          | Res.panicked s => Res.panicked s
          | Res.ub => Res.ub
          | Res.ok prev b' => Res.ok (Except.ok prev) b') = _
        rw [insert_eq hc hin v]
        simp [hbit]
      · exact getD_set_self b.data i (some v) (by rw [hc.1]; exact hin)
      · rw [testBit_or_shift]
        simp
  · intro hfull
    have hcompl0 : (2 ^ n - 1) ^^^ b.mask = 0 := by
      rw [hfull, Nat.xor_self]
    have hlownone : lowest_vacant_index n b = none := by
      unfold lowest_vacant_index
      rw [hcompl0]
      exact lowest_index_eq_none.mpr fun j _ => Nat.zero_testBit j
    have hhighnone : highest_vacant_index n b = none := by
      unfold highest_vacant_index
      rw [hcompl0]
      exact highest_index_eq_none.mpr fun j _ => Nat.zero_testBit j
    refine ⟨?_, ?_, ?_⟩
    · unfold insert_at_first_vacancy
      rw [hlownone]
    · unfold insert_at_last_vacancy
      rw [hhighnone]
    · unfold len
      rw [hfull]
      exact count_ones_allOnes n

/-- Witness for C5: spec §8's full-store rejection — `fullBlock8` is full, so
both vacancy inserts return `Err(99)` with the block unchanged and `len` 8. -/
theorem at_vacancy_spec_witness :
    insert_at_first_vacancy 8 fullBlock8 99 = .ok (.error 99) fullBlock8 ∧
    insert_at_last_vacancy 8 fullBlock8 99 = .ok (.error 99) fullBlock8 ∧
    len 8 fullBlock8 = 8 :=
  (at_vacancy_spec (n := 8) fullBlock8 99 (by decide)).2 (by decide)

/-- C6: `lowest_occupied_index` returns exactly the least index with a set
mask bit (`None` iff the mask is zero), `highest_occupied_index` the greatest
such index (`None` iff zero); `lowest_vacant_index` and
`highest_vacant_index` compute the same on the width-`n` complement of the
mask, returning `None` iff the mask is all ones.  (The implementations are
literally the trailing-zero count and `width − leading-zeros − 1` formulas of
the claim; this theorem characterizes them semantically.) -/
theorem bit_scan_spec {n : Nat} (b : Block α) (hm : b.mask < 2 ^ n) :
    (∀ i, lowest_occupied_index n b = some i ↔
      b.mask.testBit i = true ∧ ∀ j < i, b.mask.testBit j = false) ∧
    (lowest_occupied_index n b = none ↔ b.mask = 0) ∧
    (∀ i, highest_occupied_index n b = some i ↔
      b.mask.testBit i = true ∧ ∀ j, i < j → b.mask.testBit j = false) ∧
    (highest_occupied_index n b = none ↔ b.mask = 0) ∧
    (∀ i, lowest_vacant_index n b = some i ↔
      i < n ∧ b.mask.testBit i = false ∧ ∀ j < i, b.mask.testBit j = true) ∧
    (lowest_vacant_index n b = none ↔ b.mask = 2 ^ n - 1) ∧
    (∀ i, highest_vacant_index n b = some i ↔
      i < n ∧ b.mask.testBit i = false ∧ ∀ j, i < j → j < n → b.mask.testBit j = true) ∧
    (highest_vacant_index n b = none ↔ b.mask = 2 ^ n - 1) := by
  have hmc : (2 ^ n - 1) ^^^ b.mask < 2 ^ n := compl_lt_two_pow hm
  refine ⟨?_, ?_, ?_, ?_, ?_, ?_, ?_, ?_⟩
  · intro i
    constructor
    · intro h
      obtain ⟨_, hbit, hmin⟩ := lowest_index_eq_some.mp h
      exact ⟨hbit, hmin⟩
    · rintro ⟨hbit, hmin⟩
      apply lowest_index_eq_some.mpr
      refine ⟨?_, hbit, hmin⟩
      by_contra hni
      rw [testBit_ge hm (le_of_not_lt hni)] at hbit
      cases hbit
  · rw [show lowest_occupied_index n b = lowest_index n b.mask from rfl,
      lowest_index_eq_none]
    constructor
    · exact eq_zero_of_testBit hm
    · intro h0 j _
      rw [h0]
      exact Nat.zero_testBit j
  · intro i
    constructor
    · intro h
      obtain ⟨_, hbit, hmax⟩ := highest_index_eq_some.mp h
      refine ⟨hbit, fun j hij => ?_⟩
      by_cases hjn : j < n
      · exact hmax j hij hjn
      · exact testBit_ge hm (le_of_not_lt hjn)
    · rintro ⟨hbit, hmax⟩
      apply highest_index_eq_some.mpr
      refine ⟨?_, hbit, fun j hij _ => hmax j hij⟩
      by_contra hni
      rw [testBit_ge hm (le_of_not_lt hni)] at hbit
      cases hbit
  · rw [show highest_occupied_index n b = highest_index n b.mask from rfl,
      highest_index_eq_none]
    constructor
    · exact eq_zero_of_testBit hm
    · intro h0 j _
      rw [h0]
      exact Nat.zero_testBit j
  · intro i
    constructor
    · intro h
      obtain ⟨hin, hbitc, hminc⟩ := lowest_index_eq_some.mp h
      have hbit : b.mask.testBit i = false := by
        rw [testBit_compl hm i] at hbitc
        simpa [hin] using hbitc
      refine ⟨hin, hbit, fun j hj => ?_⟩
      have hz := hminc j hj
      rw [testBit_compl hm j] at hz
      simpa [show j < n by omega] using hz
    · rintro ⟨hin, hbit, hmin⟩
      apply lowest_index_eq_some.mpr
      refine ⟨hin, ?_, fun j hj => ?_⟩
      · rw [testBit_compl hm i]
        simp [hin, hbit]
      · rw [testBit_compl hm j]
        simp [hmin j hj]
  · rw [show lowest_vacant_index n b = lowest_index n ((2 ^ n - 1) ^^^ b.mask) from rfl,
      lowest_index_eq_none]
    constructor
    · intro hall
      apply eq_allOnes_of_testBit hm
      intro j hj
      have hz := hall j hj
      rw [testBit_compl hm j] at hz
      simpa [hj] using hz
    · intro hfull j _
      rw [hfull, Nat.xor_self]
      exact Nat.zero_testBit j
  · intro i
    constructor
    · intro h
      obtain ⟨hin, hbitc, hmaxc⟩ := highest_index_eq_some.mp h
      have hbit : b.mask.testBit i = false := by
        rw [testBit_compl hm i] at hbitc
        simpa [hin] using hbitc
      refine ⟨hin, hbit, fun j hij hjn => ?_⟩
      have hz := hmaxc j hij hjn
      rw [testBit_compl hm j] at hz
      simpa [hjn] using hz
    · rintro ⟨hin, hbit, hmax⟩
      apply highest_index_eq_some.mpr
      refine ⟨hin, ?_, fun j hij hjn => ?_⟩
      · rw [testBit_compl hm i]
        simp [hin, hbit]
      · rw [testBit_compl hm j]
        simp [hmax j hij hjn]
  · rw [show highest_vacant_index n b = highest_index n ((2 ^ n - 1) ^^^ b.mask) from rfl,
      highest_index_eq_none]
    constructor
    · intro hall
      apply eq_allOnes_of_testBit hm
      intro j hj
      have hz := hall j hj
      rw [testBit_compl hm j] at hz
      simpa [hj] using hz
    · intro hfull j _
      rw [hfull, Nat.xor_self]
      exact Nat.zero_testBit j

/-- Witness for C6: spec §8's bit-scan example — the block occupied at
`{2, 5, 7}` out of 8 yields indices 2, 7, 0 and 6. -/
theorem bit_scan_spec_witness :
    lowest_occupied_index 8 scatterBlock8 = some 2 ∧
    highest_occupied_index 8 scatterBlock8 = some 7 ∧
    lowest_vacant_index 8 scatterBlock8 = some 0 ∧
    highest_vacant_index 8 scatterBlock8 = some 6 ∧
    (lowest_occupied_index 8 scatterBlock8 = none ↔ scatterBlock8.mask = 0) :=
  ⟨by decide, by decide, by decide, by decide,
    (bit_scan_spec (n := 8) scatterBlock8 (by decide)).2.1⟩

/-- C8: the shared (by-reference) iterator yields exactly the cells of the
occupied slots in strictly ascending index order — the filter of the
ascending index range by the mask, mapped to the slot contents — skipping
indices whose mask bit is clear; it yields `len()` items, terminates after at
most `N` steps, and every yielded cell is a constructed value.  (The iterator
is built from `data.iter().enumerate()` plus a copy of the mask and never
writes to the block, so the block is not mutated.) -/
theorem shared_iter_spec {n : Nat} (b : Block α) (hc : maskConsistent n b) :
    iterCollect (Block.iter b)
      = ((List.range n).filter fun i => b.mask.testBit i).map (fun i => b.data.getD i none) ∧
    (iterCollect (Block.iter b)).length = len n b ∧
    (iterCollect (Block.iter b)).length ≤ n ∧
    ∀ x ∈ iterCollect (Block.iter b), x.isSome = true := by
  have hmain := iterCollect_iter b hc.1
  refine ⟨hmain, ?_, ?_, ?_⟩
  · rw [hmain, List.length_map]
    rfl
  · rw [hmain, List.length_map]
    exact le_trans (List.length_filter_le _ _) (le_of_eq (List.length_range n))
  · rw [hmain]
    intro x hx
    obtain ⟨i, hi_mem, rfl⟩ := List.mem_map.mp hx
    have hmem := List.mem_filter.mp hi_mem
    have hin := List.mem_range.mp hmem.1
    have hs := hc.2.2 i hin
    rw [hmem.2] at hs
    exact hs.symm

/-- Witness for C8: spec §8's iteration-order example — the block built from
`[10, 8, 1]` at indices 0, 1, 2 reads back those values by `get`, and its
shared iterator yields exactly `10, 8, 1` in that order. -/
theorem shared_iter_spec_witness :
    iterCollect (Block.iter block108) = [some 10, some 8, some 1] ∧
    get 8 block108 0 = .ok (some 10) block108 ∧
    get 8 block108 1 = .ok (some 8) block108 ∧
    get 8 block108 2 = .ok (some 1) block108 ∧
    get 8 block108 3 = .ok none block108 ∧
    (iterCollect (Block.iter block108)).length = len 8 block108 ∧
    (iterCollect (Block.iter block108)).length ≤ 8 :=
  ⟨by decide, by decide, by decide, by decide, by decide,
    (shared_iter_spec (n := 8) block108 (by decide)).2.1,
    (shared_iter_spec (n := 8) block108 (by decide)).2.2.1⟩

end OptionBlock
